import Mathlib

/-!
Shallow embedding of the core of the `pacman-json` package-query program
(sources: `src/reverse_deps.rs`, `src/info.rs`, `src/lib.rs`,
`src/recurse_deps.rs`), together with theorems settling the frozen claims
about its specification.

External collaborators (the alpm package database, signature decoding,
version-constraint satisfaction) are modelled as opaque parameters, exactly
as the spec declares them out of scope; everything else is translated
directly from the Rust source.
-/

namespace PacmanJson

/-- Install reason of a package, mirroring `alpm::PackageReason`
(`Explicit` vs installed-as-dependency). -/
inductive PackageReason where
  | explicit
  | depend
deriving DecidableEq

/-- The `Debug` formatting of `alpm::PackageReason`, as produced by the
`DebugFormat::format` helper in `src/info.rs`. -/
def PackageReason.format : PackageReason → String
  | .explicit => "Explicit"
  | .depend => "Depend"

/-- A dependency specification as exposed by `alpm::Dep`: a name, an optional
version constraint, a description, and the rendered dependency string
(`dep.to_string()`), which is what `find_satisfier` consumes. -/
structure Dep where
  dep_string : String
  name : String
  depmod : String
  version : Option String
  description : Option String
  name_hash : Nat
deriving DecidableEq

/-- A package as exposed by `alpm::Package`: the read-only projection of the
fields that `PackageInfo::from` (`src/info.rs`) reads. -/
structure Package where
  repository : Option String
  name : String
  version : String
  description : Option String
  architecture : Option String
  url : Option String
  licenses : List String
  groups : List String
  provides : List Dep
  depends : List Dep
  optdepends : List Dep
  makedepends : List Dep
  checkdepends : List Dep
  conflicts : List Dep
  replaces : List Dep
  size : Int
  isize : Int
  packager : Option String
  build_date : Int
  install_date : Option Int
  reason : PackageReason
  has_scriptlet : Bool
  md5sum : Option String
  sha256sum : Option String
  base64_sig : Option String
  validation : String
deriving DecidableEq

/-- The `DepInfo` struct of `src/info.rs`: a dependency specification plus the
derived `satisfier` slot, initially unset. -/
structure DepInfo where
  dep_string : String
  name : String
  depmod : String
  version : Option String
  description : Option String
  name_hash : Nat
  satisfier : Option String
deriving DecidableEq

/-- The `impl From<&Dep> for DepInfo` conversion in `src/info.rs`: copy every field and leave
`satisfier` unset. -/
def DepInfo.fromDep (dep : Dep) : DepInfo :=
  { dep_string := dep.dep_string
    name := dep.name
    depmod := dep.depmod
    version := dep.version
    description := dep.description
    name_hash := dep.name_hash
    satisfier := none }

/-- The `PackageInfo` struct of `src/info.rs`: the serializable package
record.  The `sync_with` companion slot recursively holds another record,
mirroring `Option<Box<PackageInfo>>`. -/
structure PackageInfo where
  repository : Option String
  name : String
  version : String
  description : Option String
  architecture : Option String
  url : Option String
  licenses : List String
  groups : List String
  provides : List DepInfo
  depends_on : List DepInfo
  optional_deps : List DepInfo
  makedepends : List DepInfo
  checkdepends : List DepInfo
  required_by : List String
  optional_for : List String
  required_by_make : List String
  required_by_check : List String
  conflicts_with : List DepInfo
  replaces : List DepInfo
  download_size : Int
  installed_size : Int
  packager : Option String
  build_date : Int
  install_date : Option Int
  install_reason : String
  install_script : Bool
  md5_sum : Option String
  sha_256_sum : Option String
  signatures : Option String
  key_id : Option (List String)
  validated_by : String
  sync_with : Option PackageInfo

/-- The `impl From<&Package> for PackageInfo` conversion in `src/info.rs` (also standing in
for the `PackageInfo::new` constructor used by `src/lib.rs`, which is not
part of the provided sources): a pure field-by-field projection, with the
lazily filled fields (`required_by` family, `key_id`, `sync_with`)
initialized to empty or absent. -/
def PackageInfo.ofPkg (pkg : Package) : PackageInfo :=
  { repository := pkg.repository
    name := pkg.name
    version := pkg.version
    description := pkg.description
    architecture := pkg.architecture
    url := pkg.url
    licenses := pkg.licenses
    groups := pkg.groups
    provides := pkg.provides.map DepInfo.fromDep
    depends_on := pkg.depends.map DepInfo.fromDep
    optional_deps := pkg.optdepends.map DepInfo.fromDep
    makedepends := pkg.makedepends.map DepInfo.fromDep
    checkdepends := pkg.checkdepends.map DepInfo.fromDep
    required_by := []
    optional_for := []
    required_by_make := []
    required_by_check := []
    conflicts_with := pkg.conflicts.map DepInfo.fromDep
    replaces := pkg.replaces.map DepInfo.fromDep
    download_size := pkg.size
    installed_size := pkg.isize
    packager := pkg.packager
    build_date := pkg.build_date
    install_date := pkg.install_date
    install_reason := pkg.reason.format
    install_script := pkg.has_scriptlet
    md5_sum := pkg.md5sum
    sha_256_sum := pkg.sha256sum
    signatures := pkg.base64_sig
    key_id := none
    validated_by := pkg.validation
    sync_with := none }

/-- The alpm handle, restricted to what the core reads: the local database
and the ordered list of sync databases (`handle.localdb()`,
`handle.syncdbs()`), each an ordered collection of packages. -/
structure Handle where
  localdb : List Package
  syncdbs : List (List Package)

/-! ## Reverse-dependency indexer (`src/reverse_deps.rs`) -/

/-- Ordered insertion into a `BTreeSet<String>` modelled as a sorted
duplicate-free list: `ReverseDeps::insert`. -/
def btreeInsert : List String → String → List String
  | [], v => [v]
  | x :: rest, v =>
    if v < x then v :: x :: rest
    else if v = x then x :: rest
    else x :: btreeInsert rest v

/-- A `HashMap<String, ReverseDeps>` modelled as an association list with at
most one entry per key. -/
def ReverseDepsMap : Type := List (String × List String)

/-- Lookup, as `HashMap::get`: the first (hence only) entry for a key, if any. -/
def rdLookup : ReverseDepsMap → String → Option (List String)
  | [], _ => none
  | (k, s) :: rest, d => if k = d then some s else rdLookup rest d

/-- The `entry(key).and_modify(insert).or_insert_with(singleton)` step of
`get_reverse_deps_map`: add `v` to the set stored under `k`, creating the
entry if absent. -/
def entryInsert : ReverseDepsMap → String → String → ReverseDepsMap
  | [], k, v => [(k, btreeInsert [] v)]
  | (k0, s) :: rest, k, v =>
    if k0 = k then (k0, btreeInsert s v) :: rest
    else (k0, s) :: entryInsert rest k v

/-- The function `get_reverse_deps_map` (`src/reverse_deps.rs`): one pass over every
package of every sync database, inserting the package's name under the bare
name of each of its dependencies of the selected kind. -/
def get_reverse_deps_map (handle : Handle) (get_dependencies : Package → List Dep) :
    ReverseDepsMap :=
  handle.syncdbs.foldl
    (fun m db =>
      db.foldl
        (fun m pkg =>
          (get_dependencies pkg).foldl
            (fun m dep => entryInsert m dep.name pkg.name) m)
        m)
    []

/-- The `ReverseDepsDatabase` struct of `src/reverse_deps.rs`: one map per
dependency kind. -/
structure ReverseDepsDatabase where
  optional_for : ReverseDepsMap
  required_by : ReverseDepsMap
  required_by_make : ReverseDepsMap
  required_by_check : ReverseDepsMap

/-- The `impl From<&Alpm> for ReverseDepsDatabase` conversion: build all four maps. -/
def ReverseDepsDatabase.ofHandle (handle : Handle) : ReverseDepsDatabase :=
  { optional_for := get_reverse_deps_map handle (fun pkg => pkg.optdepends)
    required_by := get_reverse_deps_map handle (fun pkg => pkg.depends)
    required_by_make := get_reverse_deps_map handle (fun pkg => pkg.makedepends)
    required_by_check := get_reverse_deps_map handle (fun pkg => pkg.checkdepends) }

/-- Membership in the set stored under key `d` of a reverse-dependency map. -/
def rdContains (m : ReverseDepsMap) (d n : String) : Prop :=
  ∃ s, rdLookup m d = some s ∧ n ∈ s

lemma mem_btreeInsert (s : List String) (v n : String) :
    n ∈ btreeInsert s v ↔ n ∈ s ∨ n = v := by
  induction s with
  | nil => simp [btreeInsert]
  | cons x rest ih =>
    by_cases h1 : v < x
    · simp [btreeInsert, h1]
      tauto
    · by_cases h2 : v = x
      · subst h2
        simp [btreeInsert, h1]
        tauto
      · simp [btreeInsert, h1, h2, ih]
        tauto

lemma rdContains_entryInsert (m : ReverseDepsMap) (k v d n : String) :
    rdContains (entryInsert m k v) d n ↔ rdContains m d n ∨ (k = d ∧ v = n) := by
  induction m with
  | nil =>
    by_cases hkd : k = d
    · subst hkd
      simp [rdContains, entryInsert, rdLookup, mem_btreeInsert]
      tauto
    · simp [rdContains, entryInsert, rdLookup, hkd]
  | cons e rest ih =>
    obtain ⟨k0, s⟩ := e
    by_cases h0 : k0 = k
    · subst h0
      by_cases hkd : k0 = d
      · subst hkd
        simp [rdContains, entryInsert, rdLookup, mem_btreeInsert]
        tauto
      · simp [rdContains, entryInsert, rdLookup, hkd]
    · by_cases hkd : k0 = d
      · subst hkd
        simp [rdContains, entryInsert, rdLookup, h0]
        intro hk
        exact absurd hk.symm h0
      · simp only [rdContains, entryInsert, if_neg h0, rdLookup, if_neg hkd]
        exact ih

lemma rdContains_foldl_deps (deps : List Dep) (pkg : Package)
    (m : ReverseDepsMap) (d n : String) :
    rdContains (deps.foldl (fun m dep => entryInsert m dep.name pkg.name) m) d n ↔
      rdContains m d n ∨ (pkg.name = n ∧ ∃ dep ∈ deps, dep.name = d) := by
  induction deps generalizing m with
  | nil => simp
  | cons dep rest ih =>
    simp only [List.foldl_cons, ih, rdContains_entryInsert, List.mem_cons]
    constructor
    · rintro ((hm | ⟨hd, hn⟩) | ⟨hn, dep0, hdep0, hd⟩)
      · exact Or.inl hm
      · exact Or.inr ⟨hn, dep, Or.inl rfl, hd⟩
      · exact Or.inr ⟨hn, dep0, Or.inr hdep0, hd⟩
    · rintro (hm | ⟨hn, dep0, (rfl | hdep0), hd⟩)
      · exact Or.inl (Or.inl hm)
      · exact Or.inl (Or.inr ⟨hd, hn⟩)
      · exact Or.inr ⟨hn, dep0, hdep0, hd⟩

lemma rdContains_foldl_pkgs (pkgs : List Package)
    (get_dependencies : Package → List Dep) (m : ReverseDepsMap) (d n : String) :
    rdContains
        (pkgs.foldl
          (fun m pkg =>
            (get_dependencies pkg).foldl
              (fun m dep => entryInsert m dep.name pkg.name) m)
          m) d n ↔
      rdContains m d n ∨
        ∃ pkg ∈ pkgs, pkg.name = n ∧ ∃ dep ∈ get_dependencies pkg, dep.name = d := by
  induction pkgs generalizing m with
  | nil => simp
  | cons pkg rest ih =>
    simp only [List.foldl_cons, ih, rdContains_foldl_deps, List.mem_cons]
    constructor
    · rintro ((hm | h) | ⟨pkg0, hpkg0, h⟩)
      · exact Or.inl hm
      · exact Or.inr ⟨pkg, Or.inl rfl, h⟩
      · exact Or.inr ⟨pkg0, Or.inr hpkg0, h⟩
    · rintro (hm | ⟨pkg0, (rfl | hpkg0), h⟩)
      · exact Or.inl (Or.inl hm)
      · exact Or.inl (Or.inr h)
      · exact Or.inr ⟨pkg0, hpkg0, h⟩

lemma rdContains_get_reverse_deps_map (handle : Handle)
    (get_dependencies : Package → List Dep) (d n : String) :
    rdContains (get_reverse_deps_map handle get_dependencies) d n ↔
      ∃ db ∈ handle.syncdbs, ∃ pkg ∈ db,
        pkg.name = n ∧ ∃ dep ∈ get_dependencies pkg, dep.name = d := by
  have key : ∀ (dbs : List (List Package)) (m : ReverseDepsMap),
      rdContains
          (dbs.foldl
            (fun m db =>
              db.foldl
                (fun m pkg =>
                  (get_dependencies pkg).foldl
                    (fun m dep => entryInsert m dep.name pkg.name) m)
                m)
            m) d n ↔
        rdContains m d n ∨
          ∃ db ∈ dbs, ∃ pkg ∈ db,
            pkg.name = n ∧ ∃ dep ∈ get_dependencies pkg, dep.name = d := by
    intro dbs
    induction dbs with
    | nil => simp
    | cons db rest ih =>
      intro m
      simp only [List.foldl_cons, ih, rdContains_foldl_pkgs, List.mem_cons]
      constructor
      · rintro ((hm | h) | ⟨db0, hdb0, h⟩)
        · exact Or.inl hm
        · exact Or.inr ⟨db, Or.inl rfl, h⟩
        · exact Or.inr ⟨db0, Or.inr hdb0, h⟩
      · rintro (hm | ⟨db0, (rfl | hdb0), h⟩)
        · exact Or.inl (Or.inl hm)
        · exact Or.inl (Or.inr h)
        · exact Or.inr ⟨db0, hdb0, h⟩
  rw [get_reverse_deps_map, key]
  simp [rdContains, rdLookup]

/-! ## Metadata reconciliation and enrichment (`src/info.rs`, `src/lib.rs`) -/

/-- The function `add_sync_info` (`src/info.rs`): keep the local record as the base and
attach the sync record as companion, overlaying nothing. -/
def add_sync_info (local_info sync_info : PackageInfo) : PackageInfo :=
  { local_info with sync_with := some sync_info }

/-- The function `add_local_info` (`src/info.rs`): take the sync record as the base,
overlay the local-only fields (install date, install reason, install-script
flag) and attach the local record as companion. -/
def add_local_info (local_info sync_info : PackageInfo) : PackageInfo :=
  { sync_info with
      install_date := local_info.install_date
      install_reason := local_info.install_reason
      install_script := local_info.install_script
      sync_with := some local_info }

/-- The function `add_reverse_deps` (`src/info.rs`): fill the four reverse-dependency
fields from the prebuilt maps, defaulting to the empty set when the package's
name has no entry. -/
def add_reverse_deps (pkg_info : PackageInfo) (reverse_deps : ReverseDepsDatabase) :
    PackageInfo :=
  let get := fun (m : ReverseDepsMap) => (rdLookup m pkg_info.name).getD []
  { pkg_info with
      required_by := get reverse_deps.required_by
      optional_for := get reverse_deps.optional_for
      required_by_make := get reverse_deps.required_by_make
      required_by_check := get reverse_deps.required_by_check }

/-- The function `decode_keyid` (`src/info.rs`), with the crypto collaborator supplied as
the opaque functions `decodeSig` (signature decoding, `alpm::decode_signature`)
and `extract` (`handle.extract_keyid`); failures of either are already
rendered to diagnostic strings, as `err.format()` does in the source. -/
def decode_keyid {Decoded : Type}
    (decodeSig : String → Except String Decoded)
    (extract : String → Decoded → Except String (List String))
    (pkg_info : PackageInfo) : PackageInfo :=
  match pkg_info.signatures with
  | none => pkg_info
  | some sig =>
    let res := match decodeSig sig with
      | .error err => [err]
      | .ok decoded =>
        match extract pkg_info.name decoded with
        | .error err => [err]
        | .ok keys => keys
    { pkg_info with key_id := some res }

/-- The function `get_databases` (`src/lib.rs`): the sync databases, or the singleton list
holding the local database. -/
def get_databases (handle : Handle) (sync : Bool) : List (List Package) :=
  match sync with
  | true => handle.syncdbs
  | false => [handle.localdb]

/-- The function `find_in_databases` (`src/lib.rs`): scan the databases in order and return
the first package with the requested name (`db.pkg(name)`); an error message
otherwise. -/
def find_in_databases : List (List Package) → String → Except String Package
  | [], name => .error (name ++ " not found in the sync databases")
  | db :: rest, name =>
    match db.find? (fun pkg => pkg.name == name) with
    | some pkg => .ok pkg
    | none => find_in_databases rest name

/-- The `PackageFilters` configuration record of `src/lib.rs`. -/
structure PackageFilters where
  sync : Bool
  all : Bool
  plain : Bool
  recurse : Option String
  optional : Bool
  summary : Bool
deriving DecidableEq

/-- The method `PackageFilters::enrich_pkg_info` (`src/lib.rs`): look up the same name in
the complementary database; on failure return the record unchanged; otherwise
reconcile, preferring the sync record as base only in sync scope or when the
local and sync records agree on packager and version. -/
def enrich_pkg_info (pf : PackageFilters) (handle : Handle)
    (pkg_info : PackageInfo) : PackageInfo :=
  match find_in_databases (get_databases handle (!pf.sync)) pkg_info.name with
  | .error _ => pkg_info
  | .ok pkg =>
    let complementary_info := PackageInfo.ofPkg pkg
    if pf.sync then add_local_info complementary_info pkg_info
    else
      let local_info := pkg_info
      let sync_info := complementary_info
      if local_info.packager = sync_info.packager ∧ local_info.version = sync_info.version
      then add_local_info local_info sync_info
      else add_sync_info local_info sync_info

/-- The method `PackageFilters::generate_pkg_info` (`src/lib.rs`): reject packages that
are not explicitly installed (unless `--all` or `--recurse`), enrich unless
`--plain`, and attach the reverse-dependency sets. -/
def generate_pkg_info (pf : PackageFilters) (handle : Handle)
    (reverse_deps : ReverseDepsDatabase) (pkg : Package) : Except String PackageInfo :=
  if pf.recurse = none ∧ pf.all = false ∧ pkg.reason ≠ PackageReason.explicit then
    .error (pkg.name ++ " not explicitly installed, skipped")
  else
    let pkg_info := PackageInfo.ofPkg pkg
    let pkg_info := if pf.plain = false then enrich_pkg_info pf handle pkg_info else pkg_info
    .ok (add_reverse_deps pkg_info reverse_deps)

/-! ## Dependency closure resolver (`src/recurse_deps.rs`)

The `IndexSet<String>` of visited `name=version` keys is an insertion-ordered
duplicate-free list; `find_satisfier` is the database primitive, modelled by
scanning the given databases in order with an opaque satisfaction predicate
`sat` (version-constraint matching is an external collaborator).  The Rust
recursion has no explicit bound; the embedding adds a fuel parameter and
returns `none` when the fuel runs out, so a `some` result certifies that the
recursion genuinely terminated. -/

/-- Insertion as `IndexSet::insert`: append the key if it is not already present. -/
def indexSetInsert (s : List String) (x : String) : List String :=
  if x ∈ s then s else s ++ [x]

/-- The `name=version` key of a resolved record, as formatted by
`recurse_dependencies`. -/
def infoKey (pkg_info : PackageInfo) : String :=
  pkg_info.name ++ "=" ++ pkg_info.version

/-- The `name=version` key of a satisfier package. -/
def pkgKey (pkg : Package) : String :=
  pkg.name ++ "=" ++ pkg.version

/-- The primitive `db_list.find_satisfier(dep_string)`: scan each database in order and
return the first package satisfying the dependency string, where `sat` is the
opaque alpm satisfaction predicate. -/
def find_satisfier (sat : Package → String → Bool) :
    List (List Package) → String → Option Package
  | [], _ => none
  | db :: rest, dep_string =>
    match db.find? (fun pkg => sat pkg dep_string) with
    | some pkg => some pkg
    | none => find_satisfier sat rest dep_string

/-- The `satisfied_dependencies` closure of `recurse_dependencies`
(`src/recurse_deps.rs`): process one list of dependency specifications left to
right, threading the visited set and the accumulator, recursing (through the
supplied `recurse` continuation) into satisfiers that are not yet visited, and
stamping each satisfied specification with its satisfier key. -/
def satisfied_dependencies (sat : Package → String → Bool) (handle : Handle)
    (databases : List (List Package)) (reverse_deps : ReverseDepsDatabase)
    (pf : PackageFilters)
    (recurse : PackageInfo → List String → List PackageInfo →
      Option (List String × List PackageInfo)) :
    List DepInfo → List String → List PackageInfo →
      Option (List DepInfo × List String × List PackageInfo)
  | [], deps_set, deps_pkgs => some ([], deps_set, deps_pkgs)
  | dep :: rest, deps_set, deps_pkgs =>
    match find_satisfier sat databases dep.dep_string with
    | none =>
      match satisfied_dependencies sat handle databases reverse_deps pf recurse
          rest deps_set deps_pkgs with
      | none => none
      | some (out, s, p) => some (dep :: out, s, p)
    | some pkg =>
      let satisfier := pkgKey pkg
      if satisfier ∈ deps_set then
        match satisfied_dependencies sat handle databases reverse_deps pf recurse
            rest deps_set deps_pkgs with
        | none => none
        | some (out, s, p) => some ({ dep with satisfier := some satisfier } :: out, s, p)
      else
        let pkg_info := match generate_pkg_info pf handle reverse_deps pkg with
          | .ok info => info
          | .error _ => PackageInfo.ofPkg pkg
        match recurse pkg_info deps_set deps_pkgs with
        | none => none
        | some (s1, p1) =>
          match satisfied_dependencies sat handle databases reverse_deps pf recurse
              rest s1 p1 with
          | none => none
          | some (out, s, p) => some ({ dep with satisfier := some satisfier } :: out, s, p)

/-- The function `recurse_dependencies` (`src/recurse_deps.rs`): insert the current
record's key into the visited set, resolve its runtime dependency list (and
its optional dependency list when `--optional`), replace the dependency lists
with the satisfier-stamped copies, and append the record to the accumulator
unless `--summary`. -/
def recurse_dependencies (sat : Package → String → Bool) (handle : Handle)
    (databases : List (List Package)) (reverse_deps : ReverseDepsDatabase)
    (pf : PackageFilters) :
    Nat → PackageInfo → Nat → List String → List PackageInfo →
      Option (List String × List PackageInfo)
  | 0, _, _, _, _ => none
  | fuel + 1, pkg_info, depth, deps_set, deps_pkgs =>
    let deps_set := indexSetInsert deps_set (infoKey pkg_info)
    let next := fun info s p =>
      recurse_dependencies sat handle databases reverse_deps pf fuel info (depth + 1) s p
    match satisfied_dependencies sat handle databases reverse_deps pf next
        pkg_info.depends_on deps_set deps_pkgs with
    | none => none
    | some (deps1, s1, p1) =>
      match pf.optional with
      | true =>
        match satisfied_dependencies sat handle databases reverse_deps pf next
            pkg_info.optional_deps s1 p1 with
        | none => none
        | some (deps2, s2, p2) =>
          let pkg_info := { pkg_info with depends_on := deps1, optional_deps := deps2 }
          some (s2, if pf.summary then p2 else p2 ++ [pkg_info])
      | false =>
        let pkg_info := { pkg_info with depends_on := deps1 }
        some (s1, if pf.summary then p1 else p1 ++ [pkg_info])

/-! ## Concrete fixtures for scenario claims and witnesses -/

/-- A bare dependency specification on a name, with no version constraint, so
its rendered dependency string is the name itself. -/
def mkDep (n : String) : Dep :=
  { dep_string := n, name := n, depmod := "Any", version := none,
    description := none, name_hash := 0 }

/-- A small concrete package with the given name, version, packager and
runtime dependency list. -/
def mkPkg (n v pkgr : String) (deps : List Dep) : Package :=
  { repository := some "core", name := n, version := v, description := none,
    architecture := some "x86_64", url := none, licenses := [], groups := [],
    provides := [], depends := deps, optdepends := [], makedepends := [],
    checkdepends := [], conflicts := [], replaces := [], size := 10, isize := 20,
    packager := some pkgr, build_date := 5, install_date := none,
    reason := PackageReason.explicit, has_scriptlet := false, md5sum := none,
    sha256sum := none, base64_sig := none, validation := "None" }

/-- Name-only satisfaction: a package satisfies a bare dependency string when
its name equals it (the concrete instantiation of the opaque alpm
`find_satisfier` matching used in the scenario universes). -/
def satName : Package → String → Bool := fun pkg s => pkg.name == s

/-- Scenario filters: a recursive query over the sync databases. -/
def pfRecurse : PackageFilters :=
  { sync := true, all := true, plain := true, recurse := some "A",
    optional := false, summary := false }

/-- Scenario universe for the linear chain: `A` depends on `B`, `B` has no
dependencies. -/
def pkgALine : Package := mkPkg "A" "1.0" "dev" [mkDep "B"]

def pkgBLine : Package := mkPkg "B" "2.0" "dev" []

def handleLine : Handle := { localdb := [], syncdbs := [[pkgALine, pkgBLine]] }

def revLine : ReverseDepsDatabase := ReverseDepsDatabase.ofHandle handleLine

def rootLine : PackageInfo :=
  match generate_pkg_info pfRecurse handleLine revLine pkgALine with
  | .ok info => info
  | .error _ => PackageInfo.ofPkg pkgALine

/-- Scenario universe for the cycle: `A` depends on `B` and `B` depends on
`A`. -/
def pkgACyc : Package := mkPkg "A" "1.0" "dev" [mkDep "B"]

def pkgBCyc : Package := mkPkg "B" "2.0" "dev" [mkDep "A"]

def handleCyc : Handle := { localdb := [], syncdbs := [[pkgACyc, pkgBCyc]] }

def revCyc : ReverseDepsDatabase := ReverseDepsDatabase.ofHandle handleCyc

def rootCyc : PackageInfo :=
  match generate_pkg_info pfRecurse handleCyc revCyc pkgACyc with
  | .ok info => info
  | .error _ => PackageInfo.ofPkg pkgACyc

/-! ## Claim theorems -/

/-- Claim C1: for every package P of the scanned sync-database universe and
every dependency kind (the `get_dependencies` selector), P's name is a member
of the set stored under key D in the map built by `get_reverse_deps_map` if
and only if some scanned package named P declares a dependency of that kind
whose name component is D; membership is keyed on the dependency's bare name
only, ignoring its version constraint. -/
theorem claim_C1 (handle : Handle) (get_dependencies : Package → List Dep)
    (d n : String) :
    (∃ s, rdLookup (get_reverse_deps_map handle get_dependencies) d = some s ∧ n ∈ s) ↔
      ∃ db ∈ handle.syncdbs, ∃ pkg ∈ db,
        pkg.name = n ∧ ∃ dep ∈ get_dependencies pkg, dep.name = d :=
  rdContains_get_reverse_deps_map handle get_dependencies d n

/-- Claim C2: reconciling in local scope (`sync` flag unset): when the sync
database holds a package of the same name, if the packager and version fields
both agree the result is the sync record with exactly the local record's
install date, install reason and install-script flag overlaid and the local
record as companion; if either differs, the result is the local record with
the sync record attached as companion and nothing overlaid. -/
theorem claim_C2 (pf : PackageFilters) (handle : Handle)
    (local_info : PackageInfo) (spkg : Package)
    (hsync : pf.sync = false)
    (hfind : find_in_databases (get_databases handle true) local_info.name =
      .ok spkg) :
    (local_info.packager = (PackageInfo.ofPkg spkg).packager ∧
        local_info.version = (PackageInfo.ofPkg spkg).version →
      enrich_pkg_info pf handle local_info =
        { PackageInfo.ofPkg spkg with
            install_date := local_info.install_date
            install_reason := local_info.install_reason
            install_script := local_info.install_script
            sync_with := some local_info }) ∧
    (¬ (local_info.packager = (PackageInfo.ofPkg spkg).packager ∧
        local_info.version = (PackageInfo.ofPkg spkg).version) →
      enrich_pkg_info pf handle local_info =
        { local_info with sync_with := some (PackageInfo.ofPkg spkg) }) := by
  constructor <;> intro hcond <;>
    simp [enrich_pkg_info, hsync, hfind, add_local_info, add_sync_info, hcond]

/-- Local package fixture for the C2 witness: same packager and version as
its sync counterpart. -/
def lpkgMatch : Package := mkPkg "foo" "1.0" "dev" []

/-- Sync package fixture for the C2 witness. -/
def spkgMatch : Package := mkPkg "foo" "1.0" "dev" []

def handleMatch : Handle := { localdb := [lpkgMatch], syncdbs := [[spkgMatch]] }

/-- Local-scope filters used by the C2 witness. -/
def pfLocal : PackageFilters :=
  { sync := false, all := true, plain := false, recurse := none,
    optional := false, summary := false }

/-- Witness for claim C2, at a concrete local/sync pair agreeing on packager
and version. -/
theorem claim_C2_witness :
    enrich_pkg_info pfLocal handleMatch (PackageInfo.ofPkg lpkgMatch) =
      { PackageInfo.ofPkg spkgMatch with
          install_date := (PackageInfo.ofPkg lpkgMatch).install_date
          install_reason := (PackageInfo.ofPkg lpkgMatch).install_reason
          install_script := (PackageInfo.ofPkg lpkgMatch).install_script
          sync_with := some (PackageInfo.ofPkg lpkgMatch) } :=
  (claim_C2 pfLocal handleMatch (PackageInfo.ofPkg lpkgMatch) spkgMatch rfl
    rfl).1 ⟨rfl, rfl⟩

/-- Claim C7: `add_reverse_deps` is total and, for each of the four
dependency kinds, sets the corresponding field to the mapped set when the
record's name is a key of the map and to the empty set when it is absent,
leaving every other field of the record unchanged. -/
theorem claim_C7 (pkg_info : PackageInfo) (reverse_deps : ReverseDepsDatabase) :
    add_reverse_deps pkg_info reverse_deps =
      { pkg_info with
          required_by :=
            match rdLookup reverse_deps.required_by pkg_info.name with
            | none => []
            | some s => s
          optional_for :=
            match rdLookup reverse_deps.optional_for pkg_info.name with
            | none => []
            | some s => s
          required_by_make :=
            match rdLookup reverse_deps.required_by_make pkg_info.name with
            | none => []
            | some s => s
          required_by_check :=
            match rdLookup reverse_deps.required_by_check pkg_info.name with
            | none => []
            | some s => s } := by
  cases h1 : rdLookup reverse_deps.required_by pkg_info.name <;>
    cases h2 : rdLookup reverse_deps.optional_for pkg_info.name <;>
      cases h3 : rdLookup reverse_deps.required_by_make pkg_info.name <;>
        cases h4 : rdLookup reverse_deps.required_by_check pkg_info.name <;>
          simp [add_reverse_deps, h1, h2, h3, h4]

/-- Claim C8: when the complementary database holds no package of the same
name, `enrich_pkg_info` returns the original record completely unmodified and
signals no error. -/
theorem claim_C8 (pf : PackageFilters) (handle : Handle)
    (pkg_info : PackageInfo) (msg : String)
    (hfind : find_in_databases (get_databases handle (!pf.sync)) pkg_info.name =
      .error msg) :
    enrich_pkg_info pf handle pkg_info = pkg_info := by
  simp [enrich_pkg_info, hfind]

/-- Handle fixture with no databases at all, for the C8 witness. -/
def handleEmpty : Handle := { localdb := [], syncdbs := [] }

/-- Witness for claim C8: enriching against an empty complementary universe
is the identity. -/
theorem claim_C8_witness :
    enrich_pkg_info pfLocal handleEmpty (PackageInfo.ofPkg lpkgMatch) =
      PackageInfo.ofPkg lpkgMatch :=
  claim_C8 pfLocal handleEmpty (PackageInfo.ofPkg lpkgMatch)
    "foo not found in the sync databases" rfl

/-- Claim C9: `decode_keyid` is total: a record without signature bytes is
returned unchanged; otherwise only the `key_id` field is set, to the
single-element diagnostic list when decoding or key extraction fails and to
the extracted key-ID list on success. -/
theorem claim_C9 {Decoded : Type}
    (decodeSig : String → Except String Decoded)
    (extract : String → Decoded → Except String (List String))
    (pkg_info : PackageInfo) :
    decode_keyid decodeSig extract pkg_info =
      match pkg_info.signatures with
      | none => pkg_info
      | some sig =>
        { pkg_info with
            key_id := some
              (match decodeSig sig with
              | .error err => [err]
              | .ok decoded =>
                match extract pkg_info.name decoded with
                | .error err => [err]
                | .ok keys => keys) } := by
  cases h : pkg_info.signatures <;> simp [decode_keyid, h]

/-- Claim C10: in sync scope (`sync` flag set), whenever a local package of
the same name exists, `enrich_pkg_info` unconditionally overlays the local
record's install date, install reason and install-script flag onto the sync
record and attaches the local record as companion, with no packager or
version comparison (the tie-break exists only in the local-scope branch). -/
theorem claim_C10 (pf : PackageFilters) (handle : Handle)
    (sync_info : PackageInfo) (lpkg : Package)
    (hsync : pf.sync = true)
    (hfind : find_in_databases (get_databases handle false) sync_info.name =
      .ok lpkg) :
    enrich_pkg_info pf handle sync_info =
      { sync_info with
          install_date := (PackageInfo.ofPkg lpkg).install_date
          install_reason := (PackageInfo.ofPkg lpkg).install_reason
          install_script := (PackageInfo.ofPkg lpkg).install_script
          sync_with := some (PackageInfo.ofPkg lpkg) } := by
  simp [enrich_pkg_info, hsync, hfind, add_local_info]

/-- Local package fixture for the C10 witness, disagreeing with its sync
counterpart on both packager and version. -/
def lpkgStale : Package := mkPkg "bar" "0.9" "other" []

/-- Sync package fixture for the C10 witness. -/
def spkgFresh : Package := mkPkg "bar" "1.1" "dev" []

def handleStale : Handle := { localdb := [lpkgStale], syncdbs := [[spkgFresh]] }

/-- Sync-scope filters used by the C10 witness. -/
def pfSync : PackageFilters :=
  { sync := true, all := true, plain := false, recurse := none,
    optional := false, summary := false }

/-- Witness for claim C10: the overlay happens even though packager and
version both differ between the local and sync records. -/
theorem claim_C10_witness :
    enrich_pkg_info pfSync handleStale (PackageInfo.ofPkg spkgFresh) =
      { PackageInfo.ofPkg spkgFresh with
          install_date := (PackageInfo.ofPkg lpkgStale).install_date
          install_reason := (PackageInfo.ofPkg lpkgStale).install_reason
          install_script := (PackageInfo.ofPkg lpkgStale).install_script
          sync_with := some (PackageInfo.ofPkg lpkgStale) } :=
  claim_C10 pfSync handleStale (PackageInfo.ofPkg spkgFresh) lpkgStale rfl rfl

/-- Claim C5: every dependency specification in a processed list is handled:
an unsatisfiable specification is passed through with its satisfier slot
untouched while the remaining siblings are still processed, and a satisfiable
one is stamped with its satisfier's `name=version` key, whether or not that
key was already visited.  Formally, a completed `satisfied_dependencies` run
returns the input list mapped element-wise through the satisfier lookup,
independently of the visited set and of the recursion outcomes. -/
theorem claim_C5 (sat : Package → String → Bool) (handle : Handle)
    (databases : List (List Package)) (reverse_deps : ReverseDepsDatabase)
    (pf : PackageFilters)
    (recurse : PackageInfo → List String → List PackageInfo →
      Option (List String × List PackageInfo))
    (deps : List DepInfo) (deps_set : List String) (deps_pkgs : List PackageInfo)
    (out : List DepInfo) (s : List String) (p : List PackageInfo)
    (hres : satisfied_dependencies sat handle databases reverse_deps pf recurse
      deps deps_set deps_pkgs = some (out, s, p)) :
    out = deps.map (fun dep =>
      match find_satisfier sat databases dep.dep_string with
      | none => dep
      | some pkg => { dep with satisfier := some (pkgKey pkg) }) := by
  induction deps generalizing deps_set deps_pkgs out s p with
  | nil =>
    simp only [satisfied_dependencies, Option.some.injEq, Prod.mk.injEq] at hres
    simp [← hres.1]
  | cons dep rest ih =>
    simp only [satisfied_dependencies] at hres
    cases hf : find_satisfier sat databases dep.dep_string with
    | none =>
      simp only [hf] at hres
      cases hrest : satisfied_dependencies sat handle databases reverse_deps pf
          recurse rest deps_set deps_pkgs with
      | none => simp [hrest] at hres
      | some r =>
        obtain ⟨out0, s0, p0⟩ := r
        simp only [hrest, Option.some.injEq, Prod.mk.injEq] at hres
        simp [← hres.1, hf, ih _ _ _ _ _ hrest]
    | some pkg =>
      simp only [hf] at hres
      by_cases hmem : pkgKey pkg ∈ deps_set
      · rw [if_pos hmem] at hres
        cases hrest : satisfied_dependencies sat handle databases reverse_deps pf
            recurse rest deps_set deps_pkgs with
        | none => simp [hrest] at hres
        | some r =>
          obtain ⟨out0, s0, p0⟩ := r
          simp only [hrest, Option.some.injEq, Prod.mk.injEq] at hres
          simp [← hres.1, hf, ih _ _ _ _ _ hrest]
      · rw [if_neg hmem] at hres
        cases hrec : recurse
            (match generate_pkg_info pf handle reverse_deps pkg with
              | .ok info => info
              | .error _ => PackageInfo.ofPkg pkg) deps_set deps_pkgs with
        | none => simp [hrec] at hres
        | some r1 =>
          obtain ⟨s1, p1⟩ := r1
          simp only [hrec] at hres
          cases hrest : satisfied_dependencies sat handle databases reverse_deps pf
              recurse rest s1 p1 with
          | none => simp [hrest] at hres
          | some r =>
            obtain ⟨out0, s0, p0⟩ := r
            simp only [hrest, Option.some.injEq, Prod.mk.injEq] at hres
            simp [← hres.1, hf, ih _ _ _ _ _ hrest]

/-- Dependency fixtures for the C5 witness: one unsatisfiable specification
followed by one whose satisfier is already visited. -/
def depMissing : DepInfo := DepInfo.fromDep (mkDep "C")

def depVisited : DepInfo := DepInfo.fromDep (mkDep "B")

/-- Witness for claim C5, at a concrete dependency list whose first entry has
no satisfier and whose second entry's satisfier is already in the visited
set: both siblings are processed, the first passes through unchanged, the
second is stamped. -/
theorem claim_C5_witness :
    [depMissing, { depVisited with satisfier := some "B=2.0" }] =
      [depMissing, depVisited].map (fun dep =>
        match find_satisfier satName [[pkgBLine]] dep.dep_string with
        | none => dep
        | some pkg => { dep with satisfier := some (pkgKey pkg) }) :=
  claim_C5 satName handleLine [[pkgBLine]] revLine pfRecurse
    (fun _ _ _ => none) [depMissing, depVisited] ["B=2.0"] []
    [depMissing, { depVisited with satisfier := some "B=2.0" }] ["B=2.0"] [] rfl

/-! ## Fuel monotonicity: a completed run is stable under extra fuel  -/

lemma satisfied_dependencies_mono (sat : Package → String → Bool)
    (handle : Handle) (databases : List (List Package))
    (reverse_deps : ReverseDepsDatabase) (pf : PackageFilters)
    (rec1 rec2 : PackageInfo → List String → List PackageInfo →
      Option (List String × List PackageInfo))
    (hrec : ∀ info s q r, rec1 info s q = some r → rec2 info s q = some r) :
    ∀ deps deps_set deps_pkgs r,
      satisfied_dependencies sat handle databases reverse_deps pf rec1
        deps deps_set deps_pkgs = some r →
      satisfied_dependencies sat handle databases reverse_deps pf rec2
        deps deps_set deps_pkgs = some r := by
  intro deps
  induction deps with
  | nil => intro deps_set deps_pkgs r hres; exact hres
  | cons dep rest ih =>
    intro deps_set deps_pkgs r hres
    simp only [satisfied_dependencies] at hres ⊢
    cases hf : find_satisfier sat databases dep.dep_string with
    | none =>
      simp only [hf] at hres ⊢
      cases hrest : satisfied_dependencies sat handle databases reverse_deps pf
          rec1 rest deps_set deps_pkgs with
      | none => simp [hrest] at hres
      | some r0 => rw [ih _ _ _ hrest]; rw [hrest] at hres; exact hres
    | some pkg =>
      simp only [hf] at hres ⊢
      by_cases hmem : pkgKey pkg ∈ deps_set
      · rw [if_pos hmem] at hres ⊢
        cases hrest : satisfied_dependencies sat handle databases reverse_deps pf
            rec1 rest deps_set deps_pkgs with
        | none => simp [hrest] at hres
        | some r0 => rw [ih _ _ _ hrest]; rw [hrest] at hres; exact hres
      · rw [if_neg hmem] at hres ⊢
        cases hrec1 : rec1
            (match generate_pkg_info pf handle reverse_deps pkg with
              | .ok info => info
              | .error _ => PackageInfo.ofPkg pkg) deps_set deps_pkgs with
        | none => simp [hrec1] at hres
        | some r1 =>
          obtain ⟨s1, p1⟩ := r1
          simp only [hrec _ _ _ _ hrec1]
          simp only [hrec1] at hres
          cases hrest : satisfied_dependencies sat handle databases reverse_deps pf
              rec1 rest s1 p1 with
          | none => simp [hrest] at hres
          | some r0 => rw [ih _ _ _ hrest]; rw [hrest] at hres; exact hres

/-- One-step unfolding of `recurse_dependencies` at positive fuel, stated so
that proofs can rewrite a single call without unfolding the recursive calls
inside it. -/
lemma recurse_dependencies_succ_eq (sat : Package → String → Bool)
    (handle : Handle) (databases : List (List Package))
    (reverse_deps : ReverseDepsDatabase) (pf : PackageFilters)
    (fuel : Nat) (info : PackageInfo) (depth : Nat)
    (deps_set : List String) (deps_pkgs : List PackageInfo) :
    recurse_dependencies sat handle databases reverse_deps pf (fuel + 1)
        info depth deps_set deps_pkgs =
      match satisfied_dependencies sat handle databases reverse_deps pf
          (fun i s p =>
            recurse_dependencies sat handle databases reverse_deps pf fuel
              i (depth + 1) s p)
          info.depends_on (indexSetInsert deps_set (infoKey info)) deps_pkgs with
      | none => none
      | some (deps1, s1, p1) =>
        match pf.optional with
        | true =>
          match satisfied_dependencies sat handle databases reverse_deps pf
              (fun i s p =>
                recurse_dependencies sat handle databases reverse_deps pf fuel
                  i (depth + 1) s p)
              info.optional_deps s1 p1 with
          | none => none
          | some (deps2, s2, p2) =>
            some (s2,
              if pf.summary then p2
              else p2 ++ [{ info with depends_on := deps1, optional_deps := deps2 }])
        | false =>
          some (s1,
            if pf.summary then p1
            else p1 ++ [{ info with depends_on := deps1 }]) := rfl

lemma recurse_dependencies_mono (sat : Package → String → Bool)
    (handle : Handle) (databases : List (List Package))
    (reverse_deps : ReverseDepsDatabase) (pf : PackageFilters) :
    ∀ fuel info depth deps_set deps_pkgs r,
      recurse_dependencies sat handle databases reverse_deps pf fuel
        info depth deps_set deps_pkgs = some r →
      recurse_dependencies sat handle databases reverse_deps pf (fuel + 1)
        info depth deps_set deps_pkgs = some r := by
  intro fuel
  induction fuel with
  | zero => intro info depth deps_set deps_pkgs r hres; simp [recurse_dependencies] at hres
  | succ n ih =>
    intro info depth deps_set deps_pkgs r hres
    rw [recurse_dependencies_succ_eq] at hres ⊢
    have hsat := satisfied_dependencies_mono sat handle databases reverse_deps pf
      (fun i s p =>
        recurse_dependencies sat handle databases reverse_deps pf n i (depth + 1) s p)
      (fun i s p =>
        recurse_dependencies sat handle databases reverse_deps pf (n + 1) i (depth + 1) s p)
      (fun i s p r0 h0 => ih i (depth + 1) s p r0 h0)
    cases h1 : satisfied_dependencies sat handle databases reverse_deps pf
        (fun i s p =>
          recurse_dependencies sat handle databases reverse_deps pf n i (depth + 1) s p)
        info.depends_on
        (indexSetInsert deps_set (infoKey info)) deps_pkgs with
    | none => simp [h1] at hres
    | some r1 =>
      obtain ⟨deps1, s1, p1⟩ := r1
      simp only [hsat _ _ _ _ h1]
      simp only [h1] at hres
      cases hopt : pf.optional with
      | true =>
        simp only [hopt] at hres ⊢
        cases h2 : satisfied_dependencies sat handle databases reverse_deps pf
            (fun i s p =>
              recurse_dependencies sat handle databases reverse_deps pf n i (depth + 1) s p)
            info.optional_deps s1 p1 with
        | none => simp [h2] at hres
        | some r2 =>
          obtain ⟨deps2, s2, p2⟩ := r2
          simp only [hsat _ _ _ _ h2]
          simp only [h2] at hres
          exact hres
      | false => simp only [hopt] at hres ⊢; exact hres

/-- Claim C4: over the cyclic universe in which `A` depends on `B` and `B`
depends on `A`, resolving `A` terminates (for every recursion budget of at
least 3 the run completes, with a budget-independent result) and the visited
set holds each of the two `name=version` keys exactly once: no record is
recursed into twice. -/
theorem claim_C4 (fuel : Nat) (hfuel : 3 ≤ fuel) :
    (recurse_dependencies satName handleCyc (get_databases handleCyc true) revCyc
        pfRecurse fuel rootCyc 0 [] []).map Prod.fst = some ["A=1.0", "B=2.0"] ∧
    (["A=1.0", "B=2.0"] : List String).count "A=1.0" = 1 ∧
    (["A=1.0", "B=2.0"] : List String).count "B=2.0" = 1 := by
  obtain ⟨k, rfl⟩ := Nat.exists_eq_add_of_le hfuel
  clear hfuel
  induction k with
  | zero => exact ⟨by decide, by decide, by decide⟩
  | succ n ih =>
    obtain ⟨ih1, ih2, ih3⟩ := ih
    refine ⟨?_, ih2, ih3⟩
    cases hrun : recurse_dependencies satName handleCyc (get_databases handleCyc true)
        revCyc pfRecurse (3 + n) rootCyc 0 [] [] with
    | none => rw [hrun] at ih1; simp at ih1
    | some r =>
      have hnext := recurse_dependencies_mono satName handleCyc
        (get_databases handleCyc true) revCyc pfRecurse (3 + n) rootCyc 0 [] [] r hrun
      have harg : 3 + (n + 1) = (3 + n) + 1 := by omega
      rw [harg, hnext]
      rw [hrun] at ih1
      exact ih1

/-- Witness for claim C4, at the exact budget 3. -/
theorem claim_C4_witness :
    3 ≤ 3 ∧
      ((recurse_dependencies satName handleCyc (get_databases handleCyc true) revCyc
          pfRecurse 3 rootCyc 0 [] []).map Prod.fst = some ["A=1.0", "B=2.0"] ∧
        (["A=1.0", "B=2.0"] : List String).count "A=1.0" = 1 ∧
        (["A=1.0", "B=2.0"] : List String).count "B=2.0" = 1) :=
  ⟨by decide, claim_C4 3 (by decide)⟩

/-- Counterexample to claim C3 as stated: over the universe where `A` depends
on `B` and `B` has no dependencies, the accumulator produced by resolving `A`
is `[B, A]`, so reversing it yields `[A, B]`, not the claimed `[B, A]`. -/
theorem claim_C3_counterexample :
    (recurse_dependencies satName handleLine (get_databases handleLine true) revLine
        pfRecurse 5 rootLine 0 [] []).map
          (fun r => (r.2.map (fun info => info.name)).reverse) = some ["A", "B"] ∧
      (some ["A", "B"] : Option (List String)) ≠ some ["B", "A"] :=
  ⟨by decide, by decide⟩

/-- Claim C3, amended: resolving `A` over the universe `{A(deps:[B]), B([])}`
yields the visited set `[A=1.0, B=2.0]` in that discovery order (`A` inserted
first), and an accumulator whose records are named `[B, A]` as produced —
dependencies already precede their dependents — so that reversing it yields
`[A, B]`. -/
theorem claim_C3 :
    (recurse_dependencies satName handleLine (get_databases handleLine true) revLine
        pfRecurse 5 rootLine 0 [] []).map
          (fun r => (r.1, r.2.map (fun info => info.name),
            (r.2.map (fun info => info.name)).reverse)) =
      some (["A=1.0", "B=2.0"], ["B", "A"], ["A", "B"]) := by decide

/-! ## Summary mode: same closure, empty accumulator -/

/-- The `summary` flag is read nowhere in `generate_pkg_info` (nor in the
enrichment it performs), so flipping it does not change generated records. -/
lemma generate_pkg_info_summary_irrel (pf : PackageFilters) (b : Bool)
    (handle : Handle) (reverse_deps : ReverseDepsDatabase) (pkg : Package) :
    generate_pkg_info { pf with summary := b } handle reverse_deps pkg =
      generate_pkg_info pf handle reverse_deps pkg := rfl
/-- Processing one dependency list yields the same satisfier-stamped output
and the same visited set whatever the accumulator input and whichever of two
filter configurations is used, provided the two configurations generate the
same records and the two continuations agree on visited sets. -/
lemma satisfied_dependencies_state_eq (sat : Package → String → Bool)
    (handle : Handle) (databases : List (List Package))
    (reverse_deps : ReverseDepsDatabase) (pf1 pf2 : PackageFilters)
    (rec1 rec2 : PackageInfo → List String → List PackageInfo →
      Option (List String × List PackageInfo))
    (hgen : ∀ pkg, generate_pkg_info pf1 handle reverse_deps pkg =
      generate_pkg_info pf2 handle reverse_deps pkg)
    (hrec : ∀ info s q1 q2,
      (rec1 info s q1).map Prod.fst = (rec2 info s q2).map Prod.fst) :
    ∀ deps deps_set p1 p2,
      (satisfied_dependencies sat handle databases reverse_deps pf1 rec1
          deps deps_set p1).map (fun r => (r.1, r.2.1)) =
      (satisfied_dependencies sat handle databases reverse_deps pf2 rec2
          deps deps_set p2).map (fun r => (r.1, r.2.1)) := by
  intro deps
  induction deps with
  | nil => intro deps_set p1 p2; simp [satisfied_dependencies]
  | cons dep rest ih =>
    intro deps_set p1 p2
    simp only [satisfied_dependencies]
    cases hf : find_satisfier sat databases dep.dep_string with
    | none =>
      have hih := ih deps_set p1 p2
      cases h1 : satisfied_dependencies sat handle databases reverse_deps pf1 rec1
          rest deps_set p1 with
      | none =>
        cases h2 : satisfied_dependencies sat handle databases reverse_deps pf2 rec2
            rest deps_set p2 with
        | none => simp [h1, h2]
        | some r2 => rw [h1, h2] at hih; simp at hih
      | some r1 =>
        cases h2 : satisfied_dependencies sat handle databases reverse_deps pf2 rec2
            rest deps_set p2 with
        | none => rw [h1, h2] at hih; simp at hih
        | some r2 =>
          obtain ⟨o1, s1, q1⟩ := r1
          obtain ⟨o2, s2, q2⟩ := r2
          rw [h1, h2] at hih
          simp only [Option.map_some', Option.some.injEq, Prod.mk.injEq] at hih
          simp [h1, h2, hih.1, hih.2]
    | some pkg =>
      by_cases hmem : pkgKey pkg ∈ deps_set
      · have hih := ih deps_set p1 p2
        cases h1 : satisfied_dependencies sat handle databases reverse_deps pf1 rec1
            rest deps_set p1 with
        | none =>
          cases h2 : satisfied_dependencies sat handle databases reverse_deps pf2 rec2
              rest deps_set p2 with
          | none => simp [hmem, h1, h2]
          | some r2 => rw [h1, h2] at hih; simp at hih
        | some r1 =>
          cases h2 : satisfied_dependencies sat handle databases reverse_deps pf2 rec2
              rest deps_set p2 with
          | none => rw [h1, h2] at hih; simp at hih
          | some r2 =>
            obtain ⟨o1, s1, q1⟩ := r1
            obtain ⟨o2, s2, q2⟩ := r2
            rw [h1, h2] at hih
            simp only [Option.map_some', Option.some.injEq, Prod.mk.injEq] at hih
            simp [hmem, h1, h2, hih.1, hih.2]
      · dsimp only
        rw [if_neg hmem, if_neg hmem]
        rw [hgen pkg]
        have hr := hrec
          (match generate_pkg_info pf2 handle reverse_deps pkg with
            | .ok info => info
            | .error _ => PackageInfo.ofPkg pkg) deps_set p1 p2
        cases hr1 : rec1
            (match generate_pkg_info pf2 handle reverse_deps pkg with
              | .ok info => info
              | .error _ => PackageInfo.ofPkg pkg) deps_set p1 with
        | none =>
          cases hr2 : rec2
              (match generate_pkg_info pf2 handle reverse_deps pkg with
                | .ok info => info
                | .error _ => PackageInfo.ofPkg pkg) deps_set p2 with
          | none => simp [hr1, hr2]
          | some b2 => rw [hr1, hr2] at hr; simp at hr
        | some a2 =>
          cases hr2 : rec2
              (match generate_pkg_info pf2 handle reverse_deps pkg with
                | .ok info => info
                | .error _ => PackageInfo.ofPkg pkg) deps_set p2 with
          | none => rw [hr1, hr2] at hr; simp at hr
          | some b2 =>
            obtain ⟨s1, q1⟩ := a2
            obtain ⟨s2, q2⟩ := b2
            rw [hr1, hr2] at hr
            simp only [Option.map_some', Option.some.injEq] at hr
            subst hr
            have hih := ih s1 q1 q2
            cases h1 : satisfied_dependencies sat handle databases reverse_deps pf1 rec1
                rest s1 q1 with
            | none =>
              cases h2 : satisfied_dependencies sat handle databases reverse_deps pf2 rec2
                  rest s1 q2 with
              | none => simp [h1, h2]
              | some r2 => rw [h1, h2] at hih; simp at hih
            | some r1 =>
              cases h2 : satisfied_dependencies sat handle databases reverse_deps pf2 rec2
                  rest s1 q2 with
              | none => rw [h1, h2] at hih; simp at hih
              | some r2 =>
                obtain ⟨o1, s3, q3⟩ := r1
                obtain ⟨o2, s4, q4⟩ := r2
                rw [h1, h2] at hih
                simp only [Option.map_some', Option.some.injEq, Prod.mk.injEq] at hih
                simp [h1, h2, hih.1, hih.2]

/-- The visited set computed by `recurse_dependencies` is the same for two
filter configurations that generate the same records and agree on the
`optional` flag (in particular: configurations differing only in `summary`),
independently of the accumulator contents. -/
lemma recurse_dependencies_state_eq (sat : Package → String → Bool)
    (handle : Handle) (databases : List (List Package))
    (reverse_deps : ReverseDepsDatabase) (pf1 pf2 : PackageFilters)
    (hgen : ∀ pkg, generate_pkg_info pf1 handle reverse_deps pkg =
      generate_pkg_info pf2 handle reverse_deps pkg)
    (hopt : pf1.optional = pf2.optional) :
    ∀ fuel info depth deps_set p1 p2,
      (recurse_dependencies sat handle databases reverse_deps pf1
          fuel info depth deps_set p1).map Prod.fst =
      (recurse_dependencies sat handle databases reverse_deps pf2
          fuel info depth deps_set p2).map Prod.fst := by
  intro fuel
  induction fuel with
  | zero => intro info depth deps_set p1 p2; simp [recurse_dependencies]
  | succ n ih =>
    intro info depth deps_set p1 p2
    rw [recurse_dependencies_succ_eq, recurse_dependencies_succ_eq]
    have hsat := satisfied_dependencies_state_eq sat handle databases reverse_deps
      pf1 pf2
      (fun i s p => recurse_dependencies sat handle databases reverse_deps
        pf1 n i (depth + 1) s p)
      (fun i s p => recurse_dependencies sat handle databases reverse_deps
        pf2 n i (depth + 1) s p)
      hgen
      (fun i s q1 q2 => ih i (depth + 1) s q1 q2)
    have h1all := hsat info.depends_on (indexSetInsert deps_set (infoKey info)) p1 p2
    cases h1 : satisfied_dependencies sat handle databases reverse_deps pf1
        (fun i s p => recurse_dependencies sat handle databases reverse_deps
          pf1 n i (depth + 1) s p)
        info.depends_on (indexSetInsert deps_set (infoKey info)) p1 with
    | none =>
      cases h2 : satisfied_dependencies sat handle databases reverse_deps pf2
          (fun i s p => recurse_dependencies sat handle databases reverse_deps
            pf2 n i (depth + 1) s p)
          info.depends_on (indexSetInsert deps_set (infoKey info)) p2 with
      | none => simp [h1, h2]
      | some r2 => rw [h1, h2] at h1all; simp at h1all
    | some r1 =>
      cases h2 : satisfied_dependencies sat handle databases reverse_deps pf2
          (fun i s p => recurse_dependencies sat handle databases reverse_deps
            pf2 n i (depth + 1) s p)
          info.depends_on (indexSetInsert deps_set (infoKey info)) p2 with
      | none => rw [h1, h2] at h1all; simp at h1all
      | some r2 =>
        obtain ⟨o1, s1, q1⟩ := r1
        obtain ⟨o2, s2, q2⟩ := r2
        rw [h1, h2] at h1all
        simp only [Option.map_some', Option.some.injEq, Prod.mk.injEq] at h1all
        obtain ⟨ho, hs⟩ := h1all
        subst ho
        subst hs
        have hopt2 : pf2.optional = pf1.optional := hopt.symm
        cases hoptv : pf1.optional with
        | true =>
          have hopt2t : pf2.optional = true := hopt2.trans hoptv
          rw [hopt2t]
          have h2all := hsat info.optional_deps s1 q1 q2
          cases h3 : satisfied_dependencies sat handle databases reverse_deps pf1
              (fun i s p => recurse_dependencies sat handle databases reverse_deps
                pf1 n i (depth + 1) s p)
              info.optional_deps s1 q1 with
          | none =>
            cases h4 : satisfied_dependencies sat handle databases reverse_deps pf2
                (fun i s p => recurse_dependencies sat handle databases reverse_deps
                  pf2 n i (depth + 1) s p)
                info.optional_deps s1 q2 with
            | none => simp [h3, h4]
            | some r4 => rw [h3, h4] at h2all; simp at h2all
          | some r3 =>
            cases h4 : satisfied_dependencies sat handle databases reverse_deps pf2
                (fun i s p => recurse_dependencies sat handle databases reverse_deps
                  pf2 n i (depth + 1) s p)
                info.optional_deps s1 q2 with
            | none => rw [h3, h4] at h2all; simp at h2all
            | some r4 =>
              obtain ⟨o3, s3, q3⟩ := r3
              obtain ⟨o4, s4, q4⟩ := r4
              rw [h3, h4] at h2all
              simp only [Option.map_some', Option.some.injEq, Prod.mk.injEq] at h2all
              simp [h3, h4, h2all.2]
        | false =>
          have hopt2f : pf2.optional = false := hopt2.trans hoptv
          rw [hopt2f]
          simp

/-- If the continuation never changes the accumulator of a completed run,
neither does one pass of `satisfied_dependencies`. -/
lemma satisfied_dependencies_acc (sat : Package → String → Bool)
    (handle : Handle) (databases : List (List Package))
    (reverse_deps : ReverseDepsDatabase) (pf : PackageFilters)
    (recurse : PackageInfo → List String → List PackageInfo →
      Option (List String × List PackageInfo))
    (hrec : ∀ info s q r, recurse info s q = some r → r.2 = q) :
    ∀ deps deps_set deps_pkgs out s p,
      satisfied_dependencies sat handle databases reverse_deps pf recurse
        deps deps_set deps_pkgs = some (out, s, p) → p = deps_pkgs := by
  intro deps
  induction deps with
  | nil =>
    intro deps_set deps_pkgs out s p hres
    simp only [satisfied_dependencies, Option.some.injEq, Prod.mk.injEq] at hres
    exact hres.2.2.symm
  | cons dep rest ih =>
    intro deps_set deps_pkgs out s p hres
    simp only [satisfied_dependencies] at hres
    cases hf : find_satisfier sat databases dep.dep_string with
    | none =>
      simp only [hf] at hres
      cases hrest : satisfied_dependencies sat handle databases reverse_deps pf
          recurse rest deps_set deps_pkgs with
      | none => simp [hrest] at hres
      | some r0 =>
        obtain ⟨out0, s0, p0⟩ := r0
        simp only [hrest, Option.some.injEq, Prod.mk.injEq] at hres
        rw [← hres.2.2]
        exact ih _ _ _ _ _ hrest
    | some pkg =>
      simp only [hf] at hres
      by_cases hmem : pkgKey pkg ∈ deps_set
      · rw [if_pos hmem] at hres
        cases hrest : satisfied_dependencies sat handle databases reverse_deps pf
            recurse rest deps_set deps_pkgs with
        | none => simp [hrest] at hres
        | some r0 =>
          obtain ⟨out0, s0, p0⟩ := r0
          simp only [hrest, Option.some.injEq, Prod.mk.injEq] at hres
          rw [← hres.2.2]
          exact ih _ _ _ _ _ hrest
      · rw [if_neg hmem] at hres
        cases hrec1 : recurse
            (match generate_pkg_info pf handle reverse_deps pkg with
              | .ok info => info
              | .error _ => PackageInfo.ofPkg pkg) deps_set deps_pkgs with
        | none => simp [hrec1] at hres
        | some r1 =>
          obtain ⟨s1, p1⟩ := r1
          simp only [hrec1] at hres
          cases hrest : satisfied_dependencies sat handle databases reverse_deps pf
              recurse rest s1 p1 with
          | none => simp [hrest] at hres
          | some r0 =>
            obtain ⟨out0, s0, p0⟩ := r0
            simp only [hrest, Option.some.injEq, Prod.mk.injEq] at hres
            rw [← hres.2.2]
            have hp1 : p1 = deps_pkgs := hrec _ _ _ _ hrec1
            rw [ih _ _ _ _ _ hrest]
            exact hp1

/-- With the `summary` flag set, a completed `recurse_dependencies` run
returns the accumulator it was given: nothing is ever appended. -/
lemma recurse_dependencies_acc (sat : Package → String → Bool)
    (handle : Handle) (databases : List (List Package))
    (reverse_deps : ReverseDepsDatabase) (pf : PackageFilters)
    (hsum : pf.summary = true) :
    ∀ fuel info depth deps_set deps_pkgs r,
      recurse_dependencies sat handle databases reverse_deps pf fuel
        info depth deps_set deps_pkgs = some r → r.2 = deps_pkgs := by
  intro fuel
  induction fuel with
  | zero =>
    intro info depth deps_set deps_pkgs r hres
    simp [recurse_dependencies] at hres
  | succ n ih =>
    intro info depth deps_set deps_pkgs r hres
    rw [recurse_dependencies_succ_eq] at hres
    cases h1 : satisfied_dependencies sat handle databases reverse_deps pf
        (fun i s p => recurse_dependencies sat handle databases reverse_deps pf
          n i (depth + 1) s p)
        info.depends_on (indexSetInsert deps_set (infoKey info)) deps_pkgs with
    | none => simp [h1] at hres
    | some r1 =>
      obtain ⟨deps1, s1, p1⟩ := r1
      simp only [h1] at hres
      have hp1 : p1 = deps_pkgs :=
        satisfied_dependencies_acc sat handle databases reverse_deps pf _
          (fun i s q r0 h0 => ih i (depth + 1) s q r0 h0) _ _ _ _ _ _ h1
      cases hopt : pf.optional with
      | true =>
        simp only [hopt] at hres
        cases h2 : satisfied_dependencies sat handle databases reverse_deps pf
            (fun i s p => recurse_dependencies sat handle databases reverse_deps pf
              n i (depth + 1) s p)
            info.optional_deps s1 p1 with
        | none => simp [h2] at hres
        | some r2 =>
          obtain ⟨deps2, s2, p2⟩ := r2
          simp only [h2, hsum, Option.some.injEq] at hres
          have hp2 : p2 = p1 :=
            satisfied_dependencies_acc sat handle databases reverse_deps pf _
              (fun i s q r0 h0 => ih i (depth + 1) s q r0 h0) _ _ _ _ _ _ h2
          rw [← hres]
          simp [hp2, hp1]
      | false =>
        simp only [hopt, hsum, Option.some.injEq] at hres
        rw [← hres]
        simp [hp1]

/-- Claim C6: for any root record and any fixed filter flags, running
`recurse_dependencies` with `summary` set completes exactly when the run with
`summary` unset does, produces the identical visited `name=version` set, and
leaves the accumulator of detailed records empty. -/
theorem claim_C6 (sat : Package → String → Bool) (handle : Handle)
    (databases : List (List Package)) (reverse_deps : ReverseDepsDatabase)
    (pf : PackageFilters) (fuel : Nat) (info : PackageInfo) (depth : Nat)
    (deps_set : List String) :
    recurse_dependencies sat handle databases reverse_deps
        { pf with summary := true } fuel info depth deps_set [] =
      (recurse_dependencies sat handle databases reverse_deps
          { pf with summary := false } fuel info depth deps_set []).map
        (fun r => (r.1, ([] : List PackageInfo))) := by
  have hst := recurse_dependencies_state_eq sat handle databases reverse_deps
    { pf with summary := true } { pf with summary := false }
    (fun pkg => (generate_pkg_info_summary_irrel pf true handle reverse_deps pkg).trans
      (generate_pkg_info_summary_irrel pf false handle reverse_deps pkg).symm)
    rfl fuel info depth deps_set [] []
  cases hT : recurse_dependencies sat handle databases reverse_deps
      { pf with summary := true } fuel info depth deps_set [] with
  | none =>
    cases hF : recurse_dependencies sat handle databases reverse_deps
        { pf with summary := false } fuel info depth deps_set [] with
    | none => simp
    | some rF => rw [hT, hF] at hst; simp at hst
  | some rT =>
    cases hF : recurse_dependencies sat handle databases reverse_deps
        { pf with summary := false } fuel info depth deps_set [] with
    | none => rw [hT, hF] at hst; simp at hst
    | some rF =>
      rw [hT, hF] at hst
      simp only [Option.map_some', Option.some.injEq] at hst
      have hacc : rT.2 = [] :=
        recurse_dependencies_acc sat handle databases reverse_deps
          { pf with summary := true } rfl fuel info depth deps_set [] rT hT
      obtain ⟨sT, pT⟩ := rT
      obtain ⟨sF, pF⟩ := rF
      simp only at hst hacc
      simp [hst, hacc]

end PacmanJson
